import Mathlib

/-!
Verification of the ALwrity product-FAQ generator (`src/product_faq_app.py`).

Python strings are modelled as lists of characters (`Str`).  The string
operations used by the program — `str.split` (with and without a separator),
`str.strip`, `str.lower`, `str.join`, the substring test `in`, and the one
regular expression `\d+\.\s*(.+?)\?\s*(.+)` — are translated below.  The
ASCII behaviour of `str.lower` is modelled by `Char.toLower`, and the regex
character classes `\d` and `\s` by `Char.isDigit` and `Char.isWhitespace`.
Network calls, the Streamlit UI and `json.dumps` serialisation are outside
the modelled core; the JSON-LD document is modelled structurally.
-/

set_option maxHeartbeats 1000000

abbrev Str := List Char

/-- Python `s.split(sep)` for a one-character separator: cut at every
occurrence of `sep`, keeping empty fragments, as `str.split` does. -/
def splitChar (sep : Char) : Str → List Str
  | [] => [[]]
  | c :: cs =>
    if c = sep then [] :: splitChar sep cs
    else
      match splitChar sep cs with
      | [] => [[c]]
      | p :: ps => (c :: p) :: ps

/-- Python `sep.join(parts)`. -/
def joinSep (sep : Str) : List Str → Str
  | [] => []
  | [l] => l
  | l :: ls => l ++ sep ++ joinSep sep ls

/-- Python `s.strip()`: remove leading and trailing whitespace. -/
def pyStrip (s : Str) : Str :=
  ((s.dropWhile Char.isWhitespace).reverse.dropWhile Char.isWhitespace).reverse

/-- Python `s.lower()` (ASCII letters). -/
def pyLower (s : Str) : Str := s.map Char.toLower

/-- Worker for `splitWs`; `acc` is the current token, reversed. -/
def splitWsAux : Str → Str → List Str
  | acc, [] => if acc = [] then [] else [acc.reverse]
  | acc, c :: cs =>
    if c.isWhitespace then
      if acc = [] then splitWsAux [] cs else acc.reverse :: splitWsAux [] cs
    else splitWsAux (c :: acc) cs

/-- Python `s.split()` with no separator: whitespace-delimited tokens,
with no empty fragments. -/
def splitWs (s : Str) : List Str := splitWsAux [] s

/-- `needle` occurs at the start of `hay`. -/
def startsWith : Str → Str → Bool
  | [], _ => true
  | _ :: _, [] => false
  | a :: as, b :: bs => a = b && startsWith as bs

/-- Python substring test `needle in hay`. -/
def containsSub (needle : Str) : Str → Bool
  | [] => startsWith needle []
  | c :: cs => startsWith needle (c :: cs) || containsSub needle cs

/-- One entry of the `organic` array of a SERP response, reduced to the two
fields consumed by the modelled functions (`link` is not used by any of
them). -/
structure OrganicResult where
  title : Str
  snippet : Str
deriving DecidableEq

/-- The SERP result dictionary as consumed by the modelled functions:
`organic` and `relatedSearches` (each entry of the latter reduced to its
`query` string).  A missing key is modelled as an empty list, matching the
falsy-dictionary checks in the source. -/
structure SerpResults where
  organic : List OrganicResult
  relatedSearches : List Str
deriving DecidableEq

/-- Tokens contributed to the keyword set by one source string: words longer
than 3 characters, lowercased (`product_faq_app.py` lines 169-181). -/
def tokensOf (s : Str) : List Str :=
  ((splitWs s).filter (fun w => 3 < w.length)).map pyLower

/-- The sequence of insertions into the `keywords` set performed by
`extract_seo_keywords_from_serp` (lines 163-181): organic titles and
snippets item by item, then related-search queries. -/
def keywordInsertions (serp : SerpResults) : List Str :=
  (serp.organic.map (fun it => tokensOf it.title ++ tokensOf it.snippet)).flatten
    ++ (serp.relatedSearches.map tokensOf).flatten

/-- Admissible iteration orders of the Python `set` built by
`extract_seo_keywords_from_serp`: CPython string hashing is randomised, so
`list(keywords)` may present the set's elements in any duplicate-free order
containing exactly the inserted elements. -/
def SetOrder (serp : SerpResults) (order : List Str) : Prop :=
  order.Nodup ∧ (∀ w ∈ order, w ∈ keywordInsertions serp)
    ∧ (∀ w ∈ keywordInsertions serp, w ∈ order)

instance (serp : SerpResults) (order : List Str) : Decidable (SetOrder serp order) := by
  unfold SetOrder; infer_instance

/-- `extract_seo_keywords_from_serp` (lines 158-183): `list(keywords)[:15]`,
parameterised by the iteration order of the set. -/
def extract_seo_keywords_from_serp (serp : SerpResults) (order : List Str) : List Str :=
  order.take 15

/-- Keep the first occurrence of every element.  Used only to express the
claimed first-appearance ordering of the keyword list. -/
def firstDedup : List Str → List Str
  | [] => []
  | x :: xs => x :: (firstDedup xs).filter (fun y => y ≠ x)

/-- Modelled from the claim's words, for comparison with the source
behaviour: keywords in order of first appearance, scanning all organic
titles, then all organic snippets, then related-search queries, truncated
to 15. -/
def claimedKeywordOrder (serp : SerpResults) : List Str :=
  (firstDedup ((serp.organic.map (fun it => tokensOf it.title)).flatten
    ++ (serp.organic.map (fun it => tokensOf it.snippet)).flatten
    ++ (serp.relatedSearches.map tokensOf).flatten)).take 15

/-- The lazy group-1 search of `re.match(r"\d+\.\s*(.+?)\?\s*(.+)", line)`:
scanning the line after the consumed whitespace, the match succeeds at the
first `'?'` preceded by a non-empty group and followed by at least one
character (`.+` also matches whitespace); an ineligible `'?'` is absorbed
into the group, since `.` matches `'?'`.  `acc` is group 1, reversed. -/
def findQSplit : Str → Str → Option (Str × Str)
  | _, [] => none
  | acc, c :: cs =>
    if c = '?' ∧ acc ≠ [] ∧ cs ≠ [] then some (acc.reverse, cs)
    else findQSplit (c :: acc) cs

/-- Backtracking of the greedy `\s*` after `\d+\.`: the engine first
consumes all leading whitespace, then gives characters back one at a time
until the rest of the pattern matches.  `ws` holds the consumed whitespace,
reversed, so the characters are restored adjacent to `tail`. -/
def backoff : Str → Str → Option (Str × Str)
  | [], tail => findQSplit [] tail
  | c :: ws, tail =>
    match findQSplit [] tail with
    | some r => some r
    | none => backoff ws (c :: tail)

/-- `re.match(r"\d+\.\s*(.+?)\?\s*(.+)", line)` followed by
`{"question": question.strip() + "?", "answer": answer.strip()}`
(lines 228-231).  The `\s*` before group 2 only removes whitespace that
`answer.strip()` removes again, so the answer is modelled as the stripped
remainder after the matched `'?'`. -/
def parseStrictLine (line : Str) : Option (Str × Str) :=
  if line.takeWhile Char.isDigit = [] then none
  else
    match line.dropWhile Char.isDigit with
    | [] => none
    | c :: rest =>
      if c = '.' then
        match backoff (rest.takeWhile Char.isWhitespace).reverse
            (rest.dropWhile Char.isWhitespace) with
        | some (g1, rem) => some (pyStrip g1 ++ ['?'], pyStrip rem)
        | none => none
      else none

/-- The numbered-line stage of `faqs_to_jsonld` (lines 227-231): each line
is matched independently and non-matching lines contribute nothing. -/
def strictPairs (lines : List Str) : List (Str × Str) :=
  lines.filterMap parseStrictLine

/-- The fallback stage (lines 233-237): fragments of the split on `'?'`
are paired `(parts[i].strip() + "?", parts[i+1].strip())` for even `i`;
a trailing unpaired fragment is dropped. -/
def fallbackPairs : List Str → List (Str × Str)
  | q :: a :: rest => (pyStrip q ++ ['?'], pyStrip a) :: fallbackPairs rest
  | _ => []

/-- The FAQ parser inside `faqs_to_jsonld` (lines 224-237). -/
def faqParse (faqs : Str) : List (Str × Str) :=
  let qas := strictPairs (splitChar '\n' faqs)
  if qas = [] then fallbackPairs (splitChar '?' faqs) else qas

structure AcceptedAnswer where
  atType : Str
  text : Str
deriving DecidableEq

structure QuestionEntry where
  atType : Str
  name : Str
  acceptedAnswer : AcceptedAnswer
deriving DecidableEq

structure FaqJsonLd where
  atContext : Str
  atType : Str
  mainEntity : List QuestionEntry
deriving DecidableEq

/-- The JSON-LD document built by `faqs_to_jsonld` (lines 238-251), with the
`@`-prefixed JSON keys rendered as `at…` fields; the final `json.dumps`
serialisation is not modelled. -/
def faqs_to_jsonld (faqs : Str) : FaqJsonLd :=
  { atContext := "https://schema.org".data
    atType := "FAQPage".data
    mainEntity := (faqParse faqs).map fun qa =>
      { atType := "Question".data
        name := qa.1
        acceptedAnswer := { atType := "Answer".data, text := qa.2 } } }

/-- The reference text of `check_faq_uniqueness` (lines 277-280):
`" ".join(title + " " + snippet for organic).lower()`. -/
def serpText (serp : SerpResults) : Str :=
  pyLower (joinSep " ".data
    (serp.organic.map (fun it => it.title ++ " ".data ++ it.snippet)))

/-- `check_faq_uniqueness` (lines 275-286): for each line of the generated
text, `(line, line.strip().lower() not in serp_text)`. -/
def check_faq_uniqueness (faqs : Str) (serp : SerpResults) : List (Str × Bool) :=
  (splitChar '\n' faqs).map fun line =>
    (line, ! containsSub (pyLower (pyStrip line)) (serpText serp))

/-- `tone_section` of `generate_product_faqs` (line 204). -/
def toneSection (tone : Str) : Str :=
  if tone ≠ [] ∧ tone ≠ "Default".data
  then "\nTone/Style: ".data ++ tone ++ ".".data else []

/-- `length_section` of `generate_product_faqs` (lines 205-211). -/
def lengthSection (l : Str) : Str :=
  if l = "Short (20-30 words)".data then "\nEach answer should be 20-30 words.".data
  else if l = "Medium (40-50 words)".data then "\nEach answer should be 40-50 words.".data
  else if l = "Long (60+ words)".data then "\nEach answer should be at least 60 words.".data
  else []

/-- `seo_section` of `generate_product_faqs` (lines 212-214). -/
def seoSection (inc : Bool) (kws : List Str) : Str :=
  if inc = true ∧ kws ≠ []
  then "\nIncorporate these SEO keywords naturally: ".data
    ++ joinSep ", ".data kws ++ ".".data
  else []

/-- The fixed instruction header of the prompt (lines 216-217). -/
def promptHeader (pk platform lang : Str) (count : Nat) : Str :=
  "You are an expert e-commerce content writer. Generate ".data
    ++ (Nat.repr count).data
    ++ " unique, concise FAQs for the product '".data ++ pk
    ++ "' on ".data ++ platform
    ++ ". Use the following SERP research and product details for inspiration. Write in ".data
    ++ lang
    ++ ". Format as a numbered list for easy copy-paste.".data

/-- The trailing context blocks of the prompt (lines 218-221). -/
def promptTail (details serp : Str) : Str :=
  "\n\n".data ++ details ++ "\n".data ++ serp ++ "\n".data

/-- The prompt assembled by `generate_product_faqs` (lines 204-221), with
the already-formatted details and SERP sections taken as inputs. -/
def composePrompt (pk platform lang : Str) (count : Nat) (tone l : Str)
    (inc : Bool) (kws : List Str) (details serp : Str) : Str :=
  let tone_section :=
    if tone ≠ [] ∧ tone ≠ "Default".data
    then "\nTone/Style: ".data ++ tone ++ ".".data else []
  let length_section :=
    if l = "Short (20-30 words)".data then "\nEach answer should be 20-30 words.".data
    else if l = "Medium (40-50 words)".data then "\nEach answer should be 40-50 words.".data
    else if l = "Long (60+ words)".data then "\nEach answer should be at least 60 words.".data
    else []
  let seo_section :=
    if inc = true ∧ kws ≠ []
    then "\nIncorporate these SEO keywords naturally: ".data
      ++ joinSep ", ".data kws ++ ".".data
    else []
  promptHeader pk platform lang count ++ tone_section ++ length_section ++ seo_section
    ++ promptTail details serp

/-- A decomposed numbered FAQ line `<index>.<question>?<answer>`. -/
structure RawLine where
  idx : Str
  q : Str
  a : Str
deriving DecidableEq

def RawLine.toLine (r : RawLine) : Str := r.idx ++ '.' :: (r.q ++ '?' :: r.a)

/-- Well-formedness of a decomposed numbered FAQ line: a non-empty run of
digits, a question part containing no `'?'` or newline and at least one
non-whitespace character, and a non-empty answer part without newlines. -/
def RawLine.wf (r : RawLine) : Prop :=
  r.idx ≠ [] ∧ (∀ c ∈ r.idx, c.isDigit = true) ∧
  (∀ c ∈ r.q, c ≠ '?' ∧ c ≠ '\n') ∧ (∃ c ∈ r.q, c.isWhitespace = false) ∧
  r.a ≠ [] ∧ (∀ c ∈ r.a, c ≠ '\n')

instance : DecidablePred RawLine.wf := fun r => by
  unfold RawLine.wf; infer_instance

/-- Concrete inputs used by witnesses and counterexamples. -/
def faqText2 : Str := "What is X?Answer A.What is Y?Answer B.".data

def faqText9 : Str :=
  "1. Are they waterproof? Yes, IPX5 rated.\n2. Battery life? Up to 8 hours.\n3. Warranty? One year.".data

def line10 : Str := "1. ?x?y".data

def serp5 : SerpResults := ⟨[⟨"Great product".data, "Buy now".data⟩], []⟩

def serp6 : SerpResults := ⟨[⟨"Wireless Earbuds".data, "".data⟩], []⟩

def order6 : List Str := ["wireless".data, "earbuds".data]

def serp7 : SerpResults := ⟨[⟨"alpha beta".data, "".data⟩], []⟩

def order7 : List Str := ["beta".data, "alpha".data]

def rs1 : List RawLine :=
  [⟨"1".data, " Is it waterproof".data, " Yes, fully.".data⟩,
   ⟨"2".data, " Battery life".data, " Eight hours.".data⟩]

/-! ### Helper lemmas -/

theorem char_toNat_ofNat_valid {n : Nat} (h : n.isValidChar) :
    (Char.ofNat n).toNat = n := by
  unfold Char.ofNat
  rw [dif_pos h]
  rfl

theorem toLower_idem (c : Char) : (Char.toLower c).toLower = Char.toLower c := by
  by_cases h : 65 ≤ c.toNat ∧ c.toNat ≤ 90
  · have hv : Nat.isValidChar (c.toNat + 32) := Or.inl (by omega)
    have h1 : Char.toLower c = Char.ofNat (c.toNat + 32) := by
      unfold Char.toLower
      rw [if_pos h]
    have h2 : (Char.ofNat (c.toNat + 32)).toNat = c.toNat + 32 :=
      char_toNat_ofNat_valid hv
    rw [h1]
    unfold Char.toLower
    rw [h2, if_neg (by omega)]
  · have h1 : Char.toLower c = c := by
      unfold Char.toLower
      rw [if_neg h]
    rw [h1, h1]

theorem pyLower_idem (s : Str) : pyLower (pyLower s) = pyLower s := by
  unfold pyLower
  rw [List.map_map]
  exact List.map_congr_left fun c _ => toLower_idem c

theorem splitChar_not_mem {c : Char} {l : Str} (h : c ∉ l) : splitChar c l = [l] := by
  induction l with
  | nil => rfl
  | cons x xs ih =>
    have hx : ¬ x = c := fun he => h (he ▸ List.mem_cons_self x xs)
    have hxs : c ∉ xs := fun hm => h (List.mem_cons_of_mem _ hm)
    simp [splitChar, hx, ih hxs]

theorem splitChar_append {c : Char} {l r : Str} (h : c ∉ l) :
    splitChar c (l ++ c :: r) = l :: splitChar c r := by
  induction l with
  | nil => simp [splitChar]
  | cons x xs ih =>
    have hx : ¬ x = c := fun he => h (he ▸ List.mem_cons_self x xs)
    have hxs : c ∉ xs := fun hm => h (List.mem_cons_of_mem _ hm)
    simp [splitChar, hx, ih hxs]

theorem splitChar_length {c : Char} (l : Str) :
    (splitChar c l).length = l.count c + 1 := by
  induction l with
  | nil => simp [splitChar]
  | cons x xs ih =>
    by_cases hx : x = c
    · subst hx
      simp [splitChar, List.count_cons, ih]
    · rcases hsp : splitChar c xs with _ | ⟨p, ps⟩
      · rw [hsp] at ih
        simp at ih
      · rw [hsp] at ih
        simp only [List.length_cons] at ih
        simp [splitChar, hx, hsp, List.count_cons, ← ih]

theorem mem_splitChar_not_mem {c : Char} : ∀ {l p : Str}, p ∈ splitChar c l → c ∉ p := by
  intro l
  induction l with
  | nil =>
    intro p hp
    simp [splitChar] at hp
    simp [hp]
  | cons x xs ih =>
    intro p hp
    by_cases hx : x = c
    · rw [show splitChar c (x :: xs) = [] :: splitChar c xs by simp [splitChar, hx]] at hp
      rcases List.mem_cons.1 hp with rfl | hp'
      · simp
      · exact ih hp'
    · cases hsp : splitChar c xs with
      | nil =>
        rw [show splitChar c (x :: xs) = [[x]] by simp [splitChar, hx, hsp]] at hp
        simp at hp
        subst hp
        intro hm
        simp at hm
        exact hx hm.symm
      | cons p' ps =>
        rw [show splitChar c (x :: xs) = (x :: p') :: ps by simp [splitChar, hx, hsp]] at hp
        rcases List.mem_cons.1 hp with rfl | hp'
        · intro hm
          rcases List.mem_cons.1 hm with hcx | hm'
          · exact hx hcx.symm
          · exact ih (hsp ▸ List.mem_cons_self p' ps) hm'
        · exact ih (hsp ▸ List.mem_cons_of_mem p' hp')

theorem splitChar_joinSep {c : Char} : ∀ (ls : List Str), ls ≠ [] →
    (∀ l ∈ ls, c ∉ l) → splitChar c (joinSep [c] ls) = ls
  | [], h, _ => absurd rfl h
  | [l], _, hm => by
    have : joinSep [c] [l] = l := by simp [joinSep]
    rw [this]
    exact splitChar_not_mem (hm l (by simp))
  | l :: l' :: ls, _, hm => by
    have hj : joinSep [c] (l :: l' :: ls) = l ++ c :: joinSep [c] (l' :: ls) := by
      simp [joinSep]
    rw [hj, splitChar_append (hm l (by simp))]
    rw [splitChar_joinSep (l' :: ls) (by simp) (fun x hx => hm x (by simp [hx]))]

theorem takeWhile_append_of_ex {α : Type} {p : α → Bool} {l₁ l₂ : List α}
    (h : ∃ x ∈ l₁, p x = false) :
    (l₁ ++ l₂).takeWhile p = l₁.takeWhile p := by
  induction l₁ with
  | nil => simp at h
  | cons x xs ih =>
    by_cases hx : p x
    · obtain ⟨y, hy, hpy⟩ := h
      rcases List.mem_cons.1 hy with rfl | hy'
      · rw [hx] at hpy; cases hpy
      · simp [List.takeWhile_cons, hx, ih ⟨y, hy', hpy⟩]
    · simp [List.takeWhile_cons, hx]

theorem dropWhile_append_of_ex {α : Type} {p : α → Bool} {l₁ l₂ : List α}
    (h : ∃ x ∈ l₁, p x = false) :
    (l₁ ++ l₂).dropWhile p = l₁.dropWhile p ++ l₂ := by
  induction l₁ with
  | nil => simp at h
  | cons x xs ih =>
    by_cases hx : p x
    · obtain ⟨y, hy, hpy⟩ := h
      rcases List.mem_cons.1 hy with rfl | hy'
      · rw [hx] at hpy; cases hpy
      · simp [List.dropWhile_cons, hx, ih ⟨y, hy', hpy⟩]
    · simp [List.dropWhile_cons, hx]

theorem mem_of_mem_dropWhile {α : Type} {p : α → Bool} {l : List α} {a : α}
    (h : a ∈ l.dropWhile p) : a ∈ l :=
  (List.dropWhile_sublist p).mem h

theorem dropWhile_dropWhile {α : Type} (p : α → Bool) (l : List α) :
    (l.dropWhile p).dropWhile p = l.dropWhile p := by
  induction l with
  | nil => rfl
  | cons x xs ih =>
    by_cases hx : p x
    · simp [List.dropWhile_cons, hx, ih]
    · simp [List.dropWhile_cons, hx]

theorem pyStrip_dropWhile (s : Str) :
    pyStrip (s.dropWhile Char.isWhitespace) = pyStrip s := by
  unfold pyStrip
  rw [dropWhile_dropWhile]

theorem mem_of_pyStrip {a : Char} {l : Str} (h : a ∈ pyStrip l) : a ∈ l := by
  unfold pyStrip at h
  rw [List.mem_reverse] at h
  have h1 := mem_of_mem_dropWhile h
  rw [List.mem_reverse] at h1
  exact mem_of_mem_dropWhile h1

theorem startsWith_iff : ∀ {n h : Str}, startsWith n h = true ↔ ∃ rest, h = n ++ rest
  | [], h => by simp [startsWith]
  | a :: as, [] => by
    simp [startsWith]
  | a :: as, b :: bs => by
    simp only [startsWith, Bool.and_eq_true, decide_eq_true_eq]
    constructor
    · rintro ⟨rfl, hs⟩
      obtain ⟨rest, rfl⟩ := startsWith_iff.1 hs
      exact ⟨rest, rfl⟩
    · rintro ⟨rest, he⟩
      rw [List.cons_append] at he
      obtain ⟨h1, h2⟩ := List.cons.inj he
      exact ⟨h1.symm, startsWith_iff.2 ⟨rest, h2⟩⟩

theorem containsSub_iff : ∀ {n h : Str},
    containsSub n h = true ↔ ∃ pre post, h = pre ++ n ++ post
  | n, [] => by
    simp only [containsSub, startsWith_iff]
    constructor
    · rintro ⟨rest, he⟩
      obtain ⟨hn, hr⟩ := List.append_eq_nil.1 he.symm
      exact ⟨[], [], by simp [hn]⟩
    · rintro ⟨pre, post, he⟩
      obtain ⟨h1, h2⟩ := List.append_eq_nil.1 he.symm
      obtain ⟨h3, h4⟩ := List.append_eq_nil.1 h1
      exact ⟨[], by simp [h4]⟩
  | n, c :: cs => by
    simp only [containsSub, Bool.or_eq_true]
    rw [startsWith_iff, containsSub_iff]
    constructor
    · rintro (⟨rest, he⟩ | ⟨pre, post, he⟩)
      · exact ⟨[], rest, by simp [he]⟩
      · exact ⟨c :: pre, post, by simp [he]⟩
    · rintro ⟨pre, post, he⟩
      cases pre with
      | nil => exact Or.inl ⟨post, by simpa using he⟩
      | cons x pre' =>
        right
        rw [List.cons_append, List.cons_append] at he
        obtain ⟨h1, h2⟩ := List.cons.inj he
        exact ⟨pre', post, h2⟩

theorem containsSub_nil_left (h : Str) : containsSub [] h = true := by
  cases h with
  | nil => rfl
  | cons c cs => simp [containsSub, startsWith]

theorem findQSplit_cons (acc : Str) (c : Char) (cs : Str) :
    findQSplit acc (c :: cs) =
      if c = '?' ∧ acc ≠ [] ∧ cs ≠ [] then some (acc.reverse, cs)
      else findQSplit (c :: acc) cs := rfl

theorem findQSplit_eq : ∀ (q acc a : Str), (∀ x ∈ q, x ≠ '?') →
    (q = [] → acc ≠ []) → a ≠ [] →
    findQSplit acc (q ++ '?' :: a) = some (acc.reverse ++ q, a)
  | [], acc, a, _, hne, ha => by
    have hacc : acc ≠ [] := hne rfl
    show findQSplit acc ('?' :: a) = some (acc.reverse ++ [], a)
    rw [findQSplit_cons, if_pos ⟨rfl, hacc, ha⟩, List.append_nil]
  | x :: q', acc, a, hq, _, ha => by
    have hx : ¬ (x = '?' ∧ acc ≠ [] ∧ q' ++ '?' :: a ≠ []) := by
      intro hcon
      exact hq x (by simp) hcon.1
    rw [List.cons_append, findQSplit_cons, if_neg hx,
      findQSplit_eq q' (x :: acc) a (fun y hy => hq y (by simp [hy])) (by simp) ha]
    simp

theorem backoff_of_findQSplit {tail : Str} {r : Str × Str}
    (h : findQSplit [] tail = some r) : ∀ ws, backoff ws tail = some r
  | [] => by simp [backoff, h]
  | c :: ws' => by simp [backoff, h]

theorem parseStrictLine_of_no_digits {line : Str}
    (h0 : line.takeWhile Char.isDigit = []) : parseStrictLine line = none := by
  unfold parseStrictLine
  rw [if_pos h0]

theorem parseStrictLine_of_drop_nil {line : Str}
    (h0 : line.takeWhile Char.isDigit ≠ [])
    (hdm : line.dropWhile Char.isDigit = []) : parseStrictLine line = none := by
  unfold parseStrictLine
  rw [if_neg h0, hdm]

theorem parseStrictLine_of_drop_cons {line : Str}
    (h0 : line.takeWhile Char.isDigit ≠ []) {c : Char} {rest : Str}
    (hdm : line.dropWhile Char.isDigit = c :: rest) :
    parseStrictLine line =
      if c = '.' then
        match backoff (rest.takeWhile Char.isWhitespace).reverse
            (rest.dropWhile Char.isWhitespace) with
        | some (g1, rem) => some (pyStrip g1 ++ ['?'], pyStrip rem)
        | none => none
      else none := by
  unfold parseStrictLine
  rw [if_neg h0, hdm]

theorem parseStrictLine_wf {d q a : Str} (hd : d ≠ [])
    (hdd : ∀ c ∈ d, c.isDigit = true)
    (hq : ∀ c ∈ q, c ≠ '?') (hqw : ∃ c ∈ q, c.isWhitespace = false)
    (ha : a ≠ []) :
    parseStrictLine (d ++ '.' :: (q ++ '?' :: a))
      = some (pyStrip q ++ ['?'], pyStrip a) := by
  have hdot : Char.isDigit '.' = false := by decide
  have h1 : (d ++ '.' :: (q ++ '?' :: a)).takeWhile Char.isDigit = d := by
    rw [List.takeWhile_append_of_pos hdd, List.takeWhile_cons, hdot]
    simp
  have h2 : (d ++ '.' :: (q ++ '?' :: a)).dropWhile Char.isDigit
      = '.' :: (q ++ '?' :: a) := by
    rw [List.dropWhile_append_of_pos hdd, List.dropWhile_cons, hdot]
    simp
  have h3 : (q ++ '?' :: a).takeWhile Char.isWhitespace
      = q.takeWhile Char.isWhitespace :=
    takeWhile_append_of_ex hqw
  have h4 : (q ++ '?' :: a).dropWhile Char.isWhitespace
      = q.dropWhile Char.isWhitespace ++ '?' :: a :=
    dropWhile_append_of_ex hqw
  have hq2ne : q.dropWhile Char.isWhitespace ≠ [] := by
    intro hnil
    obtain ⟨c, hc, hcw⟩ := hqw
    have := List.dropWhile_eq_nil_iff.1 hnil c hc
    rw [hcw] at this
    cases this
  have hq2q : ∀ x ∈ q.dropWhile Char.isWhitespace, x ≠ '?' :=
    fun x hx => hq x (mem_of_mem_dropWhile hx)
  have h5 : findQSplit [] (q.dropWhile Char.isWhitespace ++ '?' :: a)
      = some (q.dropWhile Char.isWhitespace, a) := by
    rw [findQSplit_eq _ [] a hq2q (fun hnil => absurd hnil hq2ne) ha]
    simp
  rw [parseStrictLine_of_drop_cons (by rw [h1]; exact hd) h2, if_pos rfl,
    h3, h4, backoff_of_findQSplit h5]
  show some (pyStrip (q.dropWhile Char.isWhitespace) ++ ['?'], pyStrip a)
      = some (pyStrip q ++ ['?'], pyStrip a)
  rw [pyStrip_dropWhile]

theorem parseStrictLine_shape {line : Str} {qa : Str × Str}
    (h : parseStrictLine line = some qa) :
    ∃ g rem, qa = (pyStrip g ++ ['?'], pyStrip rem) := by
  by_cases h0 : line.takeWhile Char.isDigit = []
  · rw [parseStrictLine_of_no_digits h0] at h
    cases h
  · cases hdm : line.dropWhile Char.isDigit with
    | nil =>
      rw [parseStrictLine_of_drop_nil h0 hdm] at h
      cases h
    | cons c rest =>
      rw [parseStrictLine_of_drop_cons h0 hdm] at h
      by_cases hc : c = '.'
      · rw [if_pos hc] at h
        cases hb : backoff (rest.takeWhile Char.isWhitespace).reverse
            (rest.dropWhile Char.isWhitespace) with
        | none =>
          rw [hb] at h
          cases h
        | some r =>
          rw [hb] at h
          obtain ⟨g1, rem⟩ := r
          have h' : some (pyStrip g1 ++ ['?'], pyStrip rem) = some qa := h
          exact ⟨g1, rem, (Option.some.inj h').symm⟩
      · rw [if_neg hc] at h
        cases h

theorem mem_fallbackPairs : ∀ (ps : List Str) (qa : Str × Str), qa ∈ fallbackPairs ps →
    ∃ x y, x ∈ ps ∧ qa = (pyStrip x ++ ['?'], pyStrip y)
  | [], _, h => by simp [fallbackPairs] at h
  | [x], _, h => by simp [fallbackPairs] at h
  | x :: y :: r, qa, h => by
    rw [show fallbackPairs (x :: y :: r)
        = (pyStrip x ++ ['?'], pyStrip y) :: fallbackPairs r from rfl] at h
    rcases List.mem_cons.1 h with rfl | h'
    · exact ⟨x, y, by simp, rfl⟩
    · obtain ⟨x', y', hx', hqa⟩ := mem_fallbackPairs r qa h'
      exact ⟨x', y', by simp [hx'], hqa⟩

theorem fallbackPairs_singleton (x : Str) : fallbackPairs [x] = [] := rfl

theorem fallbackPairs_nil_iff {text : Str} :
    fallbackPairs (splitChar '?' text) = [] ↔ '?' ∉ text := by
  constructor
  · intro hf
    intro hmem
    have hcount : text.count '?' ≠ 0 := fun h0 => (List.count_eq_zero.1 h0) hmem
    have hlen := splitChar_length (c := '?') text
    cases hsp : splitChar '?' text with
    | nil => rw [hsp] at hlen; simp at hlen
    | cons x t =>
      cases t with
      | nil =>
        rw [hsp] at hlen
        simp at hlen
        exact hcount hlen
      | cons y t' =>
        rw [hsp] at hf
        rw [show fallbackPairs (x :: y :: t')
            = (pyStrip x ++ ['?'], pyStrip y) :: fallbackPairs t' from rfl] at hf
        cases hf
  · intro hq
    rw [splitChar_not_mem hq]
    rfl

theorem toLine_no_newline {r : RawLine} (h : r.wf) : '\n' ∉ r.toLine := by
  obtain ⟨hidx, hdd, hq, _, _, ha⟩ := h
  intro hm
  unfold RawLine.toLine at hm
  rcases List.mem_append.1 hm with hm | hm
  · have := hdd _ hm
    simp at this
  · rcases List.mem_cons.1 hm with hdot | hm
    · cases hdot
    · rcases List.mem_append.1 hm with hm | hm
      · exact (hq _ hm).2 rfl
      · rcases List.mem_cons.1 hm with hqm | hm
        · cases hqm
        · exact ha _ hm rfl

theorem parseStrictLine_toLine {r : RawLine} (h : r.wf) :
    parseStrictLine r.toLine = some (pyStrip r.q ++ ['?'], pyStrip r.a) := by
  obtain ⟨hidx, hdd, hq, hqw, hane, _⟩ := h
  exact parseStrictLine_wf hidx hdd (fun c hc => (hq c hc).1) hqw hane

theorem strictPairs_map_toLine : ∀ (rs : List RawLine), (∀ r ∈ rs, r.wf) →
    strictPairs (rs.map RawLine.toLine)
      = rs.map (fun r => (pyStrip r.q ++ ['?'], pyStrip r.a))
  | [], _ => rfl
  | r :: rs, h => by
    unfold strictPairs
    rw [List.map_cons, List.filterMap_cons_some (parseStrictLine_toLine (h r (by simp)))]
    have ih := strictPairs_map_toLine rs (fun r' hr' => h r' (by simp [hr']))
    unfold strictPairs at ih
    rw [ih, List.map_cons]

theorem mem_tokensOf {s w : Str} (h : w ∈ tokensOf s) :
    ∃ w₀, 3 < w₀.length ∧ w = pyLower w₀ := by
  unfold tokensOf at h
  obtain ⟨w₀, hw₀, rfl⟩ := List.mem_map.1 h
  have := (List.mem_filter.1 hw₀).2
  exact ⟨w₀, by simpa using this, rfl⟩

theorem mem_keywordInsertions {serp : SerpResults} {w : Str}
    (h : w ∈ keywordInsertions serp) : ∃ w₀, 3 < w₀.length ∧ w = pyLower w₀ := by
  unfold keywordInsertions at h
  rcases List.mem_append.1 h with h | h
  · obtain ⟨l, hl, hwl⟩ := List.mem_flatten.1 h
    obtain ⟨it, _, rfl⟩ := List.mem_map.1 hl
    rcases List.mem_append.1 hwl with h' | h'
    · exact mem_tokensOf h'
    · exact mem_tokensOf h'
  · obtain ⟨l, hl, hwl⟩ := List.mem_flatten.1 h
    obtain ⟨s, _, rfl⟩ := List.mem_map.1 hl
    exact mem_tokensOf hwl

/-! ### Claim theorems -/

/-- Claim C1: for every raw text consisting of well-formed numbered lines
`<index>. <question>? <answer>`, the FAQ parser yields exactly one pair per
line, in the original order, with question = trimmed question text plus
`"?"` and answer = trimmed text following the `"?"`. -/
theorem faq_parser_numbered_lines (rs : List RawLine) (hwf : ∀ r ∈ rs, r.wf) :
    faqParse (joinSep ['\n'] (rs.map RawLine.toLine))
      = rs.map (fun r => (pyStrip r.q ++ ['?'], pyStrip r.a)) := by
  cases rs with
  | nil => rfl
  | cons r rs' =>
    have hsplit : splitChar '\n' (joinSep ['\n'] ((r :: rs').map RawLine.toLine))
        = (r :: rs').map RawLine.toLine := by
      refine splitChar_joinSep _ (by simp) ?_
      intro l hl
      obtain ⟨r', hr', rfl⟩ := List.mem_map.1 hl
      exact toLine_no_newline (hwf r' hr')
    unfold faqParse
    rw [hsplit, strictPairs_map_toLine _ hwf]
    rw [if_neg (by simp)]

theorem faq_parser_numbered_lines_witness :
    (∀ r ∈ rs1, r.wf) ∧
    faqParse (joinSep ['\n'] (rs1.map RawLine.toLine))
      = rs1.map (fun r => (pyStrip r.q ++ ['?'], pyStrip r.a)) :=
  ⟨by decide, faq_parser_numbered_lines rs1 (by decide)⟩

/-- Claim C2, counterexample: on
`"What is X?Answer A.What is Y?Answer B."` the parser yields exactly one
pair, not the two pairs the claim states: the split on `'?'` has three
fragments, and only the even-indexed fragment 0 starts a pair. -/
theorem fallback_two_pairs_refuted : (faqParse faqText2).length = 1 := by decide

/-- Claim C2, amended: on `"What is X?Answer A.What is Y?Answer B."` the
fallback stage yields exactly the single pair
`{question "What is X?", answer "Answer A.What is Y"}`; the trailing
fragment `"Answer B."` is dropped as unpaired. -/
theorem fallback_single_pair :
    faqParse faqText2 = [("What is X?".data, "Answer A.What is Y".data)] := by
  decide

/-- Claim C3: the FAQ parser is total by construction; lines matching
neither stage are silently dropped (removing a non-matching line does not
change the strict stage's output), and the parser returns the empty
sequence exactly when no line matches the numbered pattern and the text
contains no `'?'` for the fallback split. -/
theorem faq_parser_total (text : Str) (ls₁ ls₂ : List Str) (bad : Str) :
    (faqParse text = []
      ↔ (∀ l ∈ splitChar '\n' text, parseStrictLine l = none) ∧ '?' ∉ text) ∧
    (parseStrictLine bad = none →
      strictPairs (ls₁ ++ bad :: ls₂) = strictPairs (ls₁ ++ ls₂)) := by
  constructor
  · unfold faqParse
    by_cases hs : strictPairs (splitChar '\n' text) = []
    · rw [if_pos hs]
      unfold strictPairs at hs
      rw [List.filterMap_eq_nil_iff] at hs
      rw [fallbackPairs_nil_iff]
      exact ⟨fun h => ⟨hs, h⟩, fun h => h.2⟩
    · rw [if_neg hs]
      constructor
      · intro h
        exact absurd h hs
      · intro ⟨hall, _⟩
        exact absurd (by unfold strictPairs; exact List.filterMap_eq_nil_iff.2 hall) hs
  · intro hb
    unfold strictPairs
    rw [List.filterMap_append, List.filterMap_append, List.filterMap_cons_none hb]

theorem faq_parser_total_witness :
    parseStrictLine "no numbering here".data = none ∧
    strictPairs (["1. A? B".data] ++ "no numbering here".data :: [])
      = strictPairs (["1. A? B".data] ++ []) :=
  ⟨by decide,
    (faq_parser_total [] ["1. A? B".data] [] "no numbering here".data).2 (by decide)⟩

/-- Claim C4: the uniqueness checker returns one `(text, is_unique)` pair
per line of the generated text, and `is_unique` is `false` exactly when the
lowercased trimmed line occurs as a substring of the space-joined
lowercased concatenation of the organic titles and snippets. -/
theorem uniqueness_checker_contract (faqs : Str) (serp : SerpResults) :
    ((check_faq_uniqueness faqs serp).map Prod.fst = splitChar '\n' faqs) ∧
    ∀ p ∈ check_faq_uniqueness faqs serp,
      (p.2 = false ↔ ∃ pre post, serpText serp
        = pre ++ pyLower (pyStrip p.1) ++ post) := by
  constructor
  · unfold check_faq_uniqueness
    rw [List.map_map]
    exact (List.map_congr_left fun a _ => rfl).trans (List.map_id _)
  · intro p hp
    unfold check_faq_uniqueness at hp
    obtain ⟨line, hline, rfl⟩ := List.mem_map.1 hp
    show (! containsSub (pyLower (pyStrip line)) (serpText serp)) = false
      ↔ ∃ pre post, serpText serp = pre ++ pyLower (pyStrip line) ++ post
    rw [Bool.not_eq_false']
    exact containsSub_iff

theorem uniqueness_checker_contract_witness :
    (("great product".data, false) ∈ check_faq_uniqueness "great product".data serp5) ∧
    ∃ pre post, serpText serp5
      = pre ++ pyLower (pyStrip "great product".data) ++ post := by
  constructor
  · decide
  · exact ((uniqueness_checker_contract "great product".data serp5).2
      ("great product".data, false) (by decide)).1 (by decide)

/-- Claim C5, counterexample: a blank line is reported with
`is_unique = false`, not `true`: the empty string is a substring of every
reference text, so `"" not in serp_text` is always `False`. -/
theorem blank_line_flagged : check_faq_uniqueness [] serp5 = [([], false)] := by
  decide

/-- Claim C5, amended: every blank (empty after trimming) line is reported
by the checker with `is_unique = false`; the display layer, not the
checker, is what keeps blank lines from being shown as duplicates. -/
theorem blank_line_not_unique (faqs : Str) (serp : SerpResults) :
    ∀ p ∈ check_faq_uniqueness faqs serp, pyStrip p.1 = [] → p.2 = false := by
  intro p hp hstrip
  unfold check_faq_uniqueness at hp
  obtain ⟨line, hline, rfl⟩ := List.mem_map.1 hp
  show (! containsSub (pyLower (pyStrip line)) (serpText serp)) = false
  have : pyStrip line = [] := hstrip
  rw [this]
  rw [show pyLower [] = [] from rfl, containsSub_nil_left]
  rfl

theorem blank_line_not_unique_witness :
    (("   ".data, false) ∈ check_faq_uniqueness "   ".data serp5
      ∧ pyStrip "   ".data = []) ∧ (("   ".data, false) : Str × Bool).2 = false :=
  ⟨⟨by decide, by decide⟩,
    blank_line_not_unique "   ".data serp5 ("   ".data, false) (by decide) (by decide)⟩

/-- Claim C6: for every SERP context and admissible set order, the keyword
extractor returns at most 15 entries, each a lowercase token longer than 3
characters, and the empty context yields the empty list (totality holds by
construction, every modelled function being a total Lean function). -/
theorem keyword_extractor_bounds (serp : SerpResults) (order : List Str)
    (h : SetOrder serp order) :
    (extract_seo_keywords_from_serp serp order).length ≤ 15 ∧
    (∀ w ∈ extract_seo_keywords_from_serp serp order,
      3 < w.length ∧ pyLower w = w) ∧
    (serp.organic = [] → serp.relatedSearches = [] →
      extract_seo_keywords_from_serp serp order = []) := by
  refine ⟨List.length_take_le _ _, ?_, ?_⟩
  · intro w hw
    have hw' : w ∈ order := List.mem_of_mem_take hw
    have hwi : w ∈ keywordInsertions serp := h.2.1 w hw'
    obtain ⟨w₀, hlen, rfl⟩ := mem_keywordInsertions hwi
    constructor
    · show 3 < (List.map Char.toLower w₀).length
      rw [List.length_map]
      exact hlen
    · exact pyLower_idem w₀
  · intro h1 h2
    have hki : keywordInsertions serp = [] := by
      simp [keywordInsertions, h1, h2]
    have hord : order = [] := by
      rw [List.eq_nil_iff_forall_not_mem]
      intro a ha
      have := h.2.1 a ha
      rw [hki] at this
      cases this
    rw [hord]
    rfl

theorem keyword_extractor_bounds_witness :
    SetOrder serp6 order6 ∧
    (extract_seo_keywords_from_serp serp6 order6).length ≤ 15 :=
  ⟨by decide, (keyword_extractor_bounds serp6 order6 (by decide)).1⟩

/-- Claim C7, counterexample: the keyword list is read out of a Python
`set`, whose iteration order is unspecified; the admissible order
`["beta", "alpha"]` for the context whose only title is `"alpha beta"`
makes the extractor return the reverse of the claimed first-appearance
order. -/
theorem keyword_order_refuted :
    SetOrder serp7 order7 ∧
    extract_seo_keywords_from_serp serp7 order7 ≠ claimedKeywordOrder serp7 := by
  decide

/-- Claim C7, amended: for every SERP context and admissible set order, the
keyword list is duplicate-free, contains only tokens from the organic
titles, snippets and related-search queries, and contains all of them when
at most 15 are distinct — but in the set's unspecified iteration order, not
necessarily first-appearance order. -/
theorem keyword_list_set_contents (serp : SerpResults) (order : List Str)
    (h : SetOrder serp order) :
    (extract_seo_keywords_from_serp serp order).Nodup ∧
    (∀ w ∈ extract_seo_keywords_from_serp serp order,
      w ∈ keywordInsertions serp) ∧
    (order.length ≤ 15 → ∀ w ∈ keywordInsertions serp,
      w ∈ extract_seo_keywords_from_serp serp order) := by
  refine ⟨List.Nodup.sublist (List.take_sublist 15 order) h.1, ?_, ?_⟩
  · intro w hw
    exact h.2.1 w (List.mem_of_mem_take hw)
  · intro hlen w hw
    have hmem := h.2.2 w hw
    unfold extract_seo_keywords_from_serp
    rwa [List.take_of_length_le hlen]

theorem keyword_list_set_contents_witness :
    SetOrder serp7 order7 ∧ (extract_seo_keywords_from_serp serp7 order7).Nodup :=
  ⟨by decide, (keyword_list_set_contents serp7 order7 (by decide)).1⟩

/-- Claim C8: a tone, length or SEO clause appears in the composed prompt
exactly when its option is non-default (respectively enabled with a
non-empty keyword list); a default option contributes the empty string, so
the prompt is exactly the concatenation of the remaining parts with no
placeholder text. -/
theorem prompt_clause_omission (tone l : Str) (inc : Bool) (kws : List Str)
    (pk platform lang : Str) (count : Nat) (details serp : Str) :
    (toneSection tone = [] ↔ (tone = [] ∨ tone = "Default".data)) ∧
    (lengthSection l = [] ↔ (l ≠ "Short (20-30 words)".data
      ∧ l ≠ "Medium (40-50 words)".data ∧ l ≠ "Long (60+ words)".data)) ∧
    (seoSection inc kws = [] ↔ (inc = false ∨ kws = [])) ∧
    composePrompt pk platform lang count tone l inc kws details serp =
      promptHeader pk platform lang count ++ toneSection tone ++ lengthSection l
        ++ seoSection inc kws ++ promptTail details serp := by
  refine ⟨?_, ?_, ?_, rfl⟩
  · unfold toneSection
    by_cases h : tone ≠ [] ∧ tone ≠ "Default".data
    · rw [if_pos h]
      constructor
      · intro habs
        rw [List.append_eq_nil, List.append_eq_nil] at habs
        exact absurd habs.1.1 (by decide)
      · intro hor
        rcases hor with h1 | h1
        · exact absurd h1 h.1
        · exact absurd h1 h.2
    · rw [if_neg h]
      push_neg at h
      constructor
      · intro _
        by_cases he : tone = []
        · exact Or.inl he
        · exact Or.inr (h he)
      · intro _
        rfl
  · unfold lengthSection
    by_cases h1 : l = "Short (20-30 words)".data
    · rw [if_pos h1]
      constructor
      · intro habs
        exact absurd habs (by decide)
      · intro hcon
        exact absurd h1 hcon.1
    · rw [if_neg h1]
      by_cases h2 : l = "Medium (40-50 words)".data
      · rw [if_pos h2]
        constructor
        · intro habs
          exact absurd habs (by decide)
        · intro hcon
          exact absurd h2 hcon.2.1
      · rw [if_neg h2]
        by_cases h3 : l = "Long (60+ words)".data
        · rw [if_pos h3]
          constructor
          · intro habs
            exact absurd habs (by decide)
          · intro hcon
            exact absurd h3 hcon.2.2
        · rw [if_neg h3]
          exact ⟨fun _ => ⟨h1, h2, h3⟩, fun _ => rfl⟩
  · unfold seoSection
    by_cases h : inc = true ∧ kws ≠ []
    · rw [if_pos h]
      constructor
      · intro habs
        rw [List.append_eq_nil, List.append_eq_nil] at habs
        exact absurd habs.1.1 (by decide)
      · intro hor
        rcases hor with h1 | h1
        · rw [h1] at h
          exact absurd h.1 (by decide)
        · exact absurd h1 h.2
    · rw [if_neg h]
      constructor
      · intro _
        by_cases hk : kws = []
        · exact Or.inr hk
        · cases inc with
          | false => exact Or.inl rfl
          | true => exact absurd ⟨rfl, hk⟩ h
      · intro _
        rfl

/-- Claim C9: on the three-line generation output about earbuds, the parser
yields exactly 3 pairs and the emitted document has the fixed schema
envelope with a `mainEntity` array of exactly 3 question entries whose
names end in `'?'`. -/
theorem jsonld_end_to_end :
    (faqParse faqText9).length = 3 ∧
    (faqs_to_jsonld faqText9).atContext = "https://schema.org".data ∧
    (faqs_to_jsonld faqText9).atType = "FAQPage".data ∧
    (faqs_to_jsonld faqText9).mainEntity.length = 3 ∧
    ∀ e ∈ (faqs_to_jsonld faqText9).mainEntity,
      e.atType = "Question".data ∧ e.acceptedAnswer.atType = "Answer".data
        ∧ e.name.getLast? = some '?' := by
  decide

/-- Claim C10, counterexample: on the line `"1. ?x?y"` the strict stage
emits the question `"?x?"`, which contains two `'?'` characters, one of
them not final; the regex backtracks past the ineligible first `'?'` and
captures it inside group 1. -/
theorem question_two_marks :
    faqParse line10 = [("?x?".data, "y".data)]
      ∧ ("?x?".data.count '?') = 2 := by
  decide

/-- Claim C10, amended: every question emitted by either stage ends in
`'?'`; questions emitted by the fallback stage (which runs exactly when no
line matches the numbered pattern) contain exactly one `'?'`, but
strict-stage questions may contain additional `'?'` characters. -/
theorem question_ends_in_mark (text : Str) :
    ∀ qa ∈ faqParse text,
      qa.1.getLast? = some '?' ∧
      ((∀ l ∈ splitChar '\n' text, parseStrictLine l = none) →
        qa.1.count '?' = 1) := by
  intro qa hqa
  unfold faqParse at hqa
  by_cases hs : strictPairs (splitChar '\n' text) = []
  · rw [if_pos hs] at hqa
    obtain ⟨x, y, hx, rfl⟩ := mem_fallbackPairs _ _ hqa
    refine ⟨List.getLast?_concat _, fun _ => ?_⟩
    have hnx : '?' ∉ x := mem_splitChar_not_mem hx
    have hns : '?' ∉ pyStrip x := fun hm => hnx (mem_of_pyStrip hm)
    show (pyStrip x ++ ['?']).count '?' = 1
    rw [List.count_append, List.count_eq_zero.2 hns]
    rfl
  · rw [if_neg hs] at hqa
    obtain ⟨l, hl, hpl⟩ := List.mem_filterMap.1 hqa
    obtain ⟨g, rem, rfl⟩ := parseStrictLine_shape hpl
    refine ⟨List.getLast?_concat _, fun hall => ?_⟩
    rw [hall l hl] at hpl
    cases hpl

theorem question_ends_in_mark_witness :
    (("What is X?".data, "Answer A.What is Y".data) ∈ faqParse faqText2) ∧
    ("What is X?".data.getLast? = some '?') ∧ ("What is X?".data.count '?') = 1 :=
  ⟨by decide,
    (question_ends_in_mark faqText2 ("What is X?".data, "Answer A.What is Y".data)
      (by decide)).1,
    (question_ends_in_mark faqText2 ("What is X?".data, "Answer A.What is Y".data)
      (by decide)).2 (by decide)⟩
